import Mathlib

/-!
Shallow embedding of the money-muling detection pipeline
(src/detection/*.py) and proofs about it.

Amounts and timestamps are modelled as rationals (timestamps in seconds),
account identifiers as strings, the transaction multigraph as the list of
its edges in insertion order.
-/

namespace MoneyMuling

/-- Rounding to two decimal places, modelling `round(x, 2)` applied to the
pipeline's monetary and score values. -/
def round2 (x : ℚ) : ℚ := (round (x * 100) : ℤ) / 100

/-- Keep the first occurrence of every element, dropping later duplicates,
modelling `dict.fromkeys` / first-occurrence deduplication. -/
def dedupFirst : List String → List String
  | [] => []
  | x :: xs => x :: (dedupFirst xs).filter (fun y => y ≠ x)

/-- Whether the character list `l` starts with the character list `p`. -/
def listStartsWith : List Char → List Char → Bool
  | _, [] => true
  | [], _ :: _ => false
  | a :: as, b :: bs => a = b && listStartsWith as bs

/-- Whether `p` occurs as a contiguous sublist of `l`. -/
def listHasSub (p : List Char) : List Char → Bool
  | [] => listStartsWith [] p
  | c :: rest => listStartsWith (c :: rest) p || listHasSub p rest

/-- Python's substring test `pat in s`. -/
def strContains (s pat : String) : Bool := listHasSub pat.toList s.toList

/-- One directed edge of the transaction multigraph: sender, receiver,
amount, and an optional timestamp (in seconds). -/
structure Edge where
  src : String
  dst : String
  amount : ℚ
  timestamp : Option ℚ
deriving DecidableEq

/-- The directed multigraph, as its list of edges in insertion order. -/
abbrev Graph := List Edge

/-- All parallel edges from `u` to `v`: the model of `G.get_edge_data(u, v)`
in `cycle_detector.py`. -/
def edgesBetween (G : Graph) (u v : String) : List Edge :=
  G.filter (fun e => e.src == u && e.dst == v)

/-- The consecutive pairs `(cycle[i], cycle[(i+1) % len])` of a candidate
cycle, wrapping around to close the loop. -/
def cyclePairs (cycle : List String) : List (String × String) :=
  cycle.zip (cycle.drop 1 ++ cycle.take 1)

/-- `cycle_edges` of `detect_cycles`: all parallel edges collected over the
consecutive pairs of the candidate cycle. -/
def collectedEdges (G : Graph) (cycle : List String) : List Edge :=
  (cyclePairs cycle).flatMap (fun p => edgesBetween G p.1 p.2)

/-- Minimum of a list of timestamps (`min(timestamps)`); 0 on the empty
list, which the detector never queries. -/
def tsMin : List ℚ → ℚ
  | [] => 0
  | t :: ts => ts.foldl min t

/-- Maximum of a list of timestamps (`max(timestamps)`). -/
def tsMax : List ℚ → ℚ
  | [] => 0
  | t :: ts => ts.foldl max t

/-- The non-null timestamps of the collected cycle edges, as filtered at
cycle_detector.py line 80. -/
def cycleTimestamps (G : Graph) (cycle : List String) : List ℚ :=
  (collectedEdges G cycle).filterMap (fun e => e.timestamp)

/-- Min-to-max timestamp span, in seconds, over the collected edges. -/
def cycleSpanSeconds (G : Graph) (cycle : List String) : ℚ :=
  tsMax (cycleTimestamps G cycle) - tsMin (cycleTimestamps G cycle)

/-- `total_amount`: the sum of the amounts of all collected edges. -/
def cycleTotalAmount (G : Graph) (cycle : List String) : ℚ :=
  ((collectedEdges G cycle).map (fun e => e.amount)).sum

/-- A cycle ring as assembled by `detect_cycles` (risk score treated
separately by `cycle_risk_score`). -/
structure CycleRing where
  members : List String
  cycle_length : ℕ
  completed_hours : ℚ
  total_amount : ℚ
deriving DecidableEq

/-- The body of the `for cycle in all_cycles` loop of `detect_cycles`
(cycle_detector.py lines 46-110): length filter, edge collection, timestamp
check, duration filter, amount filter, ring assembly. -/
def detectCycleOne (G : Graph) (cycle : List String) : Option CycleRing :=
  if ¬ (3 ≤ cycle.length ∧ cycle.length ≤ 5) then none
  else if ∃ p ∈ cyclePairs cycle, edgesBetween G p.1 p.2 = [] then none
  else if (cycleTimestamps G cycle).length < cycle.length then none
  else if cycleSpanSeconds G cycle / 3600 / 24 > 7 then none
  else if cycleTotalAmount G cycle < 500 then none
  else some { members := cycle, cycle_length := cycle.length,
              completed_hours := round2 (cycleSpanSeconds G cycle / 3600),
              total_amount := round2 (cycleTotalAmount G cycle) }

/-- `detect_cycles`, parametrised by the list of elementary cycles that the
enumerator (`nx.simple_cycles`) yields. -/
def detect_cycles (G : Graph) (candidates : List (List String)) : List CycleRing :=
  candidates.filterMap (detectCycleOne G)

/-- `_cycle_risk_score` (cycle_detector.py lines 116-139). -/
noncomputable def cycle_risk_score (length : ℕ) (duration_hours total_amount : ℝ) : ℝ :=
  let length_score : ℝ := if length = 3 then 40 else if length = 4 then 30 else 20
  let speed_score : ℝ := if duration_hours ≤ 24 then 40 else if duration_hours ≤ 72 then 30 else 15
  let amount_score : ℝ := min 20 (Real.logb 10 (max total_amount 1) * 4)
  min 100 (length_score + speed_score + amount_score)

/-- A fan-in / fan-out event of the smurfing detector: counterparty,
amount, optional timestamp. -/
structure Event where
  counterparty : String
  amount : ℚ
  timestamp : Option ℚ
deriving DecidableEq

/-- An event that survived the missing-timestamp filter. -/
structure TEvent where
  counterparty : String
  amount : ℚ
  ts : ℚ
deriving DecidableEq

/-- Keep an event only if its timestamp is present. -/
def toTEvent (e : Event) : Option TEvent :=
  e.timestamp.map (fun t => { counterparty := e.counterparty, amount := e.amount, ts := t })

/-- Stable insertion, ascending by timestamp (equal timestamps keep the
original order, as Python's stable `list.sort`). -/
def insertByTs (a : TEvent) : List TEvent → List TEvent
  | [] => [a]
  | b :: bs => if a.ts ≤ b.ts then a :: b :: bs else b :: insertByTs a bs

/-- Stable sort of events ascending by timestamp. -/
def sortTs : List TEvent → List TEvent
  | [] => []
  | x :: xs => insertByTs x (sortTs xs)

/-- The events of `l` falling in the inclusive 72-hour window starting
at `t` (seconds). -/
def windowEvents (l : List TEvent) (t : ℚ) : List TEvent :=
  l.filter (fun x => decide (t ≤ x.ts) && decide (x.ts ≤ t + 259200))

/-- The number of unique counterparties in the 72-hour window with left
edge `t`. -/
def windowUnique (l : List TEvent) (t : ℚ) : ℕ :=
  ((windowEvents l t).map (fun x => x.counterparty)).toFinset.card

/-- One step of the sliding-window scan: replace the best window exactly
when the current window has strictly more unique counterparties. -/
def swStep (l : List TEvent) (st : ℕ × Option (ℚ × List TEvent)) (e : TEvent) :
    ℕ × Option (ℚ × List TEvent) :=
  if st.1 < windowUnique l e.ts then
    (windowUnique l e.ts, some (e.ts, windowEvents l e.ts))
  else st

/-- The full sliding-window scan of `_sliding_window_check`: every event is
a candidate left edge, in sorted order. -/
def swFold (l : List TEvent) : ℕ × Option (ℚ × List TEvent) :=
  l.foldl (swStep l) (0, none)

/-- A smurfing ring as assembled by `_sliding_window_check` (risk score is
computed afterwards and is not part of the claims modelled here). -/
structure SmurfRing where
  pattern_type : String
  hub_account : String
  members : List String
  peak_count : ℕ
  peak_window_start : ℚ
  peak_window_end : ℚ
  total_amount : ℚ
deriving DecidableEq

/-- `_sliding_window_check` (smurfing_detector.py lines 120-182).
`setOrder` models the iteration order of `list(set(...))`, which Python
leaves implementation-defined: it is an arbitrary re-ordering of the
distinct counterparties of the peak window. -/
def slidingWindowCheck (setOrder : List String → List String) (node : String)
    (events : List Event) (pattern : String) : Option SmurfRing :=
  match events.filterMap toTEvent with
  | [] => none
  | t :: ts =>
    let sorted := sortTs (t :: ts)
    let best := swFold sorted
    if best.1 < 10 then none
    else
      match best.2 with
      | none => none
      | some (ws, wevs) =>
        some { pattern_type := pattern
               hub_account := node
               members := node :: setOrder (dedupFirst (wevs.map (fun e => e.counterparty)))
               peak_count := best.1
               peak_window_start := ws
               peak_window_end := ws + 259200
               total_amount := round2 ((wevs.map (fun e => e.amount)).sum) }

/-- The shell predicate and DFS of `shell_detector.py`. Total degree of a
node, counting parallel edges (`G.in_degree + G.out_degree`). -/
def nodeDegree (G : Graph) (n : String) : ℕ :=
  (G.filter (fun e => e.src == n)).length + (G.filter (fun e => e.dst == n)).length

/-- An account is a shell iff its total degree is at most 3. -/
def isShell (G : Graph) (n : String) : Bool := nodeDegree G n ≤ 3

/-- Distinct successors of a node, in edge insertion order
(`G.successors`). -/
def successors (G : Graph) (n : String) : List String :=
  dedupFirst ((G.filter (fun e => e.src == n)).map (fun e => e.dst))

mutual

/-- `_dfs_find_chains` with `fuel = 8 - depth`: the body after the
`depth >= MAX_CHAIN_LENGTH` guard. -/
def dfsGo (G : Graph) (path : List String) : ℕ → List (List String)
  | 0 => []
  | f + 1 => dfsNb G path f (successors G (path.getLastD ""))

/-- The `for neighbor in G.successors(current_node)` loop of
`_dfs_find_chains` (shell_detector.py lines 127-162). -/
def dfsNb (G : Graph) (path : List String) (f : ℕ) : List String → List (List String)
  | [] => []
  | c :: rest =>
    (if c ∈ path then [] else
      let newPath := path ++ [c]
      let hops := newPath.length - 1
      if ((newPath.drop 1).dropLast).all (fun n => isShell G n) then
        (if 3 ≤ hops then [newPath] else []) ++ dfsGo G newPath f
      else
        (if 3 ≤ hops - 1 then [path] else []))
    ++ dfsNb G path f rest

end

/-- `_dfs_find_chains(G, node_degree, start, path, depth)`. -/
def dfs_find_chains (G : Graph) (path : List String) (depth : ℕ) : List (List String) :=
  dfsGo G path (8 - depth)

/-- A ring as consumed by the scorer and the false-positive filter
(the union of the fields the three detectors emit; fields a variant lacks
keep the `dict.get` defaults of `scorer.py`). -/
structure Ring where
  ring_id : String
  pattern_type : String
  members : List String
  total_amount : ℚ
  risk_score : ℚ
  cycle_length : ℕ := 3
  completed_hours : ℚ := 168
deriving DecidableEq

/-- A flagged account as produced by `score_accounts`. -/
structure FlaggedAccount where
  account_id : String
  suspicion_score : ℚ
  detected_patterns : List String
  ring_id : String
  ring_ids : List String
deriving DecidableEq

/-- The per-account accumulator of `score_accounts`. -/
structure AccData where
  ring_ids : List String
  patterns : List String
  cycle_score : ℚ
  smurf_score : ℚ
  shell_score : ℚ
deriving DecidableEq

/-- `account_data`: an insertion-ordered account map. -/
abbrev AccMap := List (String × AccData)

/-- `_ensure(acc_id)`: insert an empty accumulator if absent. -/
def ensureAcc (m : AccMap) (acc : String) : AccMap :=
  if m.any (fun p => p.1 == acc) then m
  else m ++ [(acc, { ring_ids := [], patterns := [], cycle_score := 0, smurf_score := 0, shell_score := 0 })]

/-- Update the accumulator stored under a key. -/
def updateAcc (m : AccMap) (acc : String) (f : AccData → AccData) : AccMap :=
  m.map (fun p => if p.1 == acc then (p.1, f p.2) else p)

/-- Shared shape of the three per-ring loops of `score_accounts`: for each
member, ensure an accumulator exists and update it. -/
def procRing (upd : Ring → AccData → AccData) (m : AccMap) (r : Ring) : AccMap :=
  r.members.foldl (fun m2 acc => updateAcc (ensureAcc m2 acc) acc (upd r)) m

/-- Per-member update for one cycle ring (scorer.py lines 62-85). -/
def cycleUpd (r : Ring) (d : AccData) : AccData :=
  { d with ring_ids := d.ring_ids ++ [r.ring_id]
           patterns := d.patterns ++ ["cycle_length_" ++ toString r.cycle_length] ++
             (if r.completed_hours ≤ 24 then ["high_velocity"]
              else if r.completed_hours ≤ 72 then ["moderate_velocity"]
              else [])
           cycle_score := max d.cycle_score (r.risk_score / 100 * 40) }

/-- Per-member update for one smurfing ring (scorer.py lines 88-98). -/
def smurfUpd (r : Ring) (d : AccData) : AccData :=
  { d with ring_ids := d.ring_ids ++ [r.ring_id]
           patterns := d.patterns ++ [r.pattern_type]
           smurf_score := max d.smurf_score (r.risk_score / 100 * 25) }

/-- Per-member update for one shell-chain ring (scorer.py lines 101-109). -/
def shellUpd (r : Ring) (d : AccData) : AccData :=
  { d with ring_ids := d.ring_ids ++ [r.ring_id]
           patterns := d.patterns ++ ["shell_chain"]
           shell_score := max d.shell_score (r.risk_score / 100 * 15) }

/-- A cleaned transaction row (all required fields present). -/
structure Txn where
  sender : String
  receiver : String
  amount : ℚ
  timestamp : ℚ
deriving DecidableEq

/-- `_compute_velocity_scores` for one account (scorer.py lines 169-197):
the spike ratio in [0, 1], or `none` when the account is not flagged for
velocity. -/
def velocityScore (txns : List Txn) (acc : String) : Option ℚ :=
  let at_ := txns.filter (fun t => t.sender == acc || t.receiver == acc)
  if at_.length < 3 then none
  else
    match at_.map (fun t => t.timestamp) with
    | [] => none
    | t :: ts =>
      let tmin := ts.foldl min t
      let tmax := ts.foldl max t
      let total_days := max ((tmax - tmin) / 86400) 1
      let avg : ℚ := (at_.length : ℚ) / total_days
      let peak : ℕ := (at_.map (fun e =>
        (at_.filter (fun x => decide (e.timestamp ≤ x.timestamp) &&
          decide (x.timestamp ≤ e.timestamp + 86400))).length)).foldl max 0
      if 0 < avg ∧ avg * 3 < (peak : ℚ) then some (min 1 ((peak : ℚ) / avg / 20))
      else none

/-- `_count_unique_pattern_types` (scorer.py lines 202-214). -/
def typeOfPattern (p : String) : Option String :=
  if strContains p "cycle" then some "cycle"
  else if strContains p "fan" then some "smurf"
  else if strContains p "shell" then some "shell"
  else if strContains p "velocity" then some "velocity"
  else none

/-- Number of distinct detector families implied by a pattern list. -/
def countUniqueTypes (ps : List String) : ℕ :=
  (dedupFirst (ps.filterMap typeOfPattern)).length

/-- The `ring_map` lookup of `_pick_primary_ring` (later duplicates of a
ring id overwrite earlier ones, missing ids score 0). -/
def lookupRisk (rings : List Ring) (rid : String) : ℚ :=
  match rings.reverse.find? (fun r => r.ring_id == rid) with
  | some r => r.risk_score
  | none => 0

/-- `_pick_primary_ring` (scorer.py lines 217-224): Python's `max` with a
key returns the first maximal element. -/
def pickPrimaryRing (ring_ids : List String) (rings : List Ring) : String :=
  match ring_ids with
  | [] => "UNKNOWN"
  | r0 :: rest =>
    rest.foldl (fun best rid =>
      if lookupRisk rings best < lookupRisk rings rid then rid else best) r0

/-- `score_accounts` (scorer.py lines 26-149). -/
def score_accounts (txns : List Txn) (cycleRings smurfRings shellRings : List Ring) :
    List FlaggedAccount :=
  let m0 : AccMap := []
  let m1 := cycleRings.foldl (procRing cycleUpd) m0
  let m2 := smurfRings.foldl (procRing smurfUpd) m1
  let m3 := shellRings.foldl (procRing shellUpd) m2
  m3.map (fun p =>
    let d := p.2
    let vel := (match velocityScore txns p.1 with | some v => v | none => 0) * 20
    let bonus : ℚ := if 2 ≤ countUniqueTypes d.patterns then 10 else 0
    let total := min 100 (round2 (d.cycle_score + d.smurf_score + d.shell_score + vel + bonus))
    { account_id := p.1
      suspicion_score := total
      detected_patterns := dedupFirst d.patterns
      ring_id := pickPrimaryRing d.ring_ids (cycleRings ++ smurfRings ++ shellRings)
      ring_ids := dedupFirst d.ring_ids })

/-- Ring filtering of `filter_false_positives` (false_positive_filter.py
lines 49-64): drop micro-amount cycles, drop rings whose members are all
merchant-or-payroll. -/
def ringSurvives (merchants payroll : List String) (r : Ring) : Bool :=
  if r.pattern_type == "cycle" && decide (r.total_amount < 500) then false
  else !((r.members.filter (fun m => !(decide (m ∈ merchants) || decide (m ∈ payroll)))).isEmpty)

/-- The surviving rings of `filter_false_positives`. -/
def filterRings (merchants payroll : List String) (rings : List Ring) : List Ring :=
  rings.filter (ringSurvives merchants payroll)

/-- Per-account adjustment of `filter_false_positives`
(false_positive_filter.py lines 66-90): merchant down-weight, else payroll
down-weight with `fan_out` tag removal, rounding, and the final score
threshold. -/
def adjustAccount (merchants payroll : List String) (a : FlaggedAccount) :
    Option FlaggedAccount :=
  let a1 :=
    if a.account_id ∈ merchants then
      { a with suspicion_score := a.suspicion_score * (30 / 100)
               detected_patterns := a.detected_patterns ++ ["fp_merchant_downweight"] }
    else if a.account_id ∈ payroll then
      { a with suspicion_score := a.suspicion_score * (40 / 100)
               detected_patterns :=
                 (a.detected_patterns.filter (fun p => !(strContains p "fan_out")))
                   ++ ["fp_payroll_downweight"] }
    else a
  let a2 := { a1 with suspicion_score := round2 a1.suspicion_score }
  if 10 ≤ a2.suspicion_score then some a2 else none

/-- The surviving, adjusted accounts of `filter_false_positives`, in map
insertion order. -/
def filterAccounts (merchants payroll : List String) (accs : List FlaggedAccount) :
    List FlaggedAccount :=
  accs.filterMap (adjustAccount merchants payroll)

/-- Stable insertion, descending by suspicion score: an element is placed
before the first strictly-smaller-or-equal... placed after every element
with a strictly larger score and before equal scores it preceded, giving
Python's stable `sorted(..., reverse=True)`. -/
def insertDesc (a : FlaggedAccount) : List FlaggedAccount → List FlaggedAccount
  | [] => [a]
  | b :: bs => if b.suspicion_score ≤ a.suspicion_score then a :: b :: bs
               else b :: insertDesc a bs

/-- The report sort of `analyze` (engine.py lines 80-92):
`sorted(..., key=score, reverse=True)`, which is stable and uses no
further key. -/
def sortSuspicious : List FlaggedAccount → List FlaggedAccount
  | [] => []
  | x :: xs => insertDesc x (sortSuspicious xs)

/-- The ordering claimed for `suspicious_accounts`: non-increasing scores,
ties broken by account id ascending. -/
def reportOrderSpec (l : List FlaggedAccount) : Prop :=
  l.Pairwise (fun a b => b.suspicion_score < a.suspicion_score ∨
    (a.suspicion_score = b.suspicion_score ∧ a.account_id < b.account_id))

instance (l : List FlaggedAccount) : Decidable (reportOrderSpec l) :=
  inferInstanceAs (Decidable (l.Pairwise _))

/-- Field-wise equality of smurfing rings up to the order of the
counterparty members. -/
def smurfRingEquiv (r1 r2 : SmurfRing) : Prop :=
  r1.pattern_type = r2.pattern_type ∧ r1.hub_account = r2.hub_account ∧
  r1.members.Perm r2.members ∧ r1.peak_count = r2.peak_count ∧
  r1.peak_window_start = r2.peak_window_start ∧
  r1.peak_window_end = r2.peak_window_end ∧ r1.total_amount = r2.total_amount

/-- A concrete 3-cycle A→B→C→A, 200 on each hop, closing within one hour. -/
def witnessCycleGraph : Graph :=
  [{ src := "A", dst := "B", amount := 200, timestamp := some 0 },
   { src := "B", dst := "C", amount := 200, timestamp := some 1800 },
   { src := "C", dst := "A", amount := 200, timestamp := some 3600 }]

/-- A 3-cycle whose A→B edge lacks a timestamp. -/
def missingTsGraph : Graph :=
  [{ src := "A", dst := "B", amount := 1000, timestamp := none },
   { src := "B", dst := "C", amount := 1000, timestamp := some 0 },
   { src := "C", dst := "A", amount := 1000, timestamp := some 100 }]

/-- The same 3-cycle with the missing timestamp filled in. -/
def missingTsGraphFilled : Graph :=
  [{ src := "A", dst := "B", amount := 1000, timestamp := some 50 },
   { src := "B", dst := "C", amount := 1000, timestamp := some 0 },
   { src := "C", dst := "A", amount := 1000, timestamp := some 100 }]

/-- Ten events from ten distinct counterparties within 90 seconds. -/
def tenSenderEvents : List Event :=
  [{ counterparty := "P0", amount := 1, timestamp := some 0 },
   { counterparty := "P1", amount := 1, timestamp := some 10 },
   { counterparty := "P2", amount := 1, timestamp := some 20 },
   { counterparty := "P3", amount := 1, timestamp := some 30 },
   { counterparty := "P4", amount := 1, timestamp := some 40 },
   { counterparty := "P5", amount := 1, timestamp := some 50 },
   { counterparty := "P6", amount := 1, timestamp := some 60 },
   { counterparty := "P7", amount := 1, timestamp := some 70 },
   { counterparty := "P8", amount := 1, timestamp := some 80 },
   { counterparty := "P9", amount := 1, timestamp := some 90 }]

/-- The same scenario with only nine distinct counterparties. -/
def nineSenderEvents : List Event := tenSenderEvents.take 9

/-- A shell-chain ring whose member order is not ascending by account id:
`nx.simple_cycles` / the DFS may return members in any rotation or path
order, and all four members end up with equal suspicion scores. -/
def shellRingBA : Ring :=
  { ring_id := "RING_H_001", pattern_type := "shell_chain",
    members := ["D", "B", "A", "C"], total_amount := 12000, risk_score := 74 }

/-- A concrete cycle ring with total amount 600. -/
def ringC600 : Ring :=
  { ring_id := "RING_C_001", pattern_type := "cycle",
    members := ["A", "B", "C"], total_amount := 600, risk_score := 90 }

/-- A concrete micro cycle ring with total amount 300. -/
def ringC300 : Ring :=
  { ring_id := "RING_C_002", pattern_type := "cycle",
    members := ["A", "B", "C"], total_amount := 300, risk_score := 90 }

/-- A concrete shell chain A→S1→S2→B where S1 and S2 each have total
degree 2. -/
def witnessShellGraph : Graph :=
  [{ src := "A", dst := "S1", amount := 4000, timestamp := some 0 },
   { src := "S1", dst := "S2", amount := 4000, timestamp := some 10 },
   { src := "S2", dst := "B", amount := 4000, timestamp := some 20 }]

/-- The flagged account that `score_accounts` produces for member D of
`shellRingBA`. -/
def flaggedD : FlaggedAccount :=
  { account_id := "D", suspicion_score := 111 / 10, detected_patterns := ["shell_chain"],
    ring_id := "RING_H_001", ring_ids := ["RING_H_001"] }

/-- A concrete flagged account that is both merchant and payroll. -/
def accM : FlaggedAccount :=
  { account_id := "M", suspicion_score := 50, detected_patterns := ["fan_out"],
    ring_id := "RING_S_001", ring_ids := ["RING_S_001"] }

/-! ### Theorems -/

/-- Claim C6: after `filter_false_positives`, every surviving cycle ring
has `total_amount ≥ 500`, and every surviving ring has at least one member
outside the union of the merchant and payroll sets. -/
theorem filterRings_invariants (merchants payroll : List String) (rings : List Ring)
    (r : Ring) (hr : r ∈ filterRings merchants payroll rings) :
    (r.pattern_type = "cycle" → 500 ≤ r.total_amount) ∧
    ∃ m ∈ r.members, m ∉ merchants ∧ m ∉ payroll := by
  rw [filterRings, List.mem_filter] at hr
  obtain ⟨-, hs⟩ := hr
  rw [ringSurvives] at hs
  split at hs
  · exact absurd hs (by simp)
  · rename_i hcond
    simp only [Bool.and_eq_true, beq_iff_eq, decide_eq_true_eq, not_and] at hcond
    refine ⟨fun hcyc => le_of_not_lt (hcond hcyc), ?_⟩
    simp only [Bool.not_eq_true', List.isEmpty_eq_false_iff_exists_mem] at hs
    obtain ⟨m, hm⟩ := hs
    rw [List.mem_filter] at hm
    obtain ⟨hmem, hleg⟩ := hm
    simp only [Bool.not_eq_true', Bool.or_eq_false_iff, decide_eq_false_iff_not] at hleg
    exact ⟨m, hmem, hleg.1, hleg.2⟩

/-- Witness for C6: a concrete two-ring input where the micro cycle is
dropped and the surviving ring satisfies both invariants. -/
theorem filterRings_invariants_witness :
    ringC600 ∈ filterRings ["A"] ["B"] [ringC600, ringC300] ∧
    ((ringC600.pattern_type = "cycle" → 500 ≤ ringC600.total_amount) ∧
      ∃ m ∈ ringC600.members, m ∉ ["A"] ∧ m ∉ ["B"]) :=
  ⟨by decide, filterRings_invariants ["A"] ["B"] [ringC600, ringC300] ringC600 (by decide)⟩

/-- Claim C7: the per-account adjustment of `filter_false_positives`.
A merchant account's score is scaled by 0.30 and tagged
`fp_merchant_downweight`, suppressing the payroll branch; otherwise a
payroll account loses every pattern containing `fan_out`, is scaled by
0.40 and tagged `fp_payroll_downweight`; in every case the score is then
rounded to two decimals and the account is dropped exactly when the
rounded score is below 10. -/
theorem adjustAccount_spec (merchants payroll : List String) (a : FlaggedAccount) :
    (a.account_id ∈ merchants →
      adjustAccount merchants payroll a =
        (if 10 ≤ round2 (a.suspicion_score * (30 / 100)) then
          some { a with suspicion_score := round2 (a.suspicion_score * (30 / 100)),
                        detected_patterns := a.detected_patterns ++ ["fp_merchant_downweight"] }
         else none)) ∧
    (a.account_id ∉ merchants → a.account_id ∈ payroll →
      adjustAccount merchants payroll a =
        (if 10 ≤ round2 (a.suspicion_score * (40 / 100)) then
          some { a with suspicion_score := round2 (a.suspicion_score * (40 / 100)),
                        detected_patterns :=
                          (a.detected_patterns.filter (fun p => !(strContains p "fan_out")))
                            ++ ["fp_payroll_downweight"] }
         else none)) ∧
    (a.account_id ∉ merchants → a.account_id ∉ payroll →
      adjustAccount merchants payroll a =
        (if 10 ≤ round2 a.suspicion_score then
          some { a with suspicion_score := round2 a.suspicion_score }
         else none)) := by
  refine ⟨fun hm => ?_, fun hm hp => ?_, fun hm hp => ?_⟩
  · rw [adjustAccount]
    simp only [if_pos hm]
  · rw [adjustAccount]
    simp only [if_neg hm, if_pos hp]
  · rw [adjustAccount]
    simp only [if_neg hm, if_neg hp]

/-- Witness for C7: a concrete account that is both merchant and payroll;
the merchant branch applies, the payroll branch is suppressed, and the
rounded score 15 ≥ 10 keeps the account. -/
theorem adjustAccount_spec_witness :
    accM.account_id ∈ ["M"] ∧
    adjustAccount ["M"] ["M"] accM =
      (if 10 ≤ round2 (accM.suspicion_score * (30 / 100)) then
        some { accM with suspicion_score := round2 (accM.suspicion_score * (30 / 100)),
                         detected_patterns := accM.detected_patterns ++ ["fp_merchant_downweight"] }
       else none) :=
  ⟨by decide, (adjustAccount_spec ["M"] ["M"] accM).1 (by decide)⟩

/-- Claim C8: `_cycle_risk_score` equals the clamped sum of its length,
speed and amount components, and always lies in [0, 100] for surviving
cycle lengths. -/
theorem cycle_risk_score_spec (k : ℕ) (d a : ℝ) (h1 : 3 ≤ k) (h2 : k ≤ 5) :
    cycle_risk_score k d a =
      min 100 ((if k = 3 then (40 : ℝ) else if k = 4 then 30 else 20) +
        (if d ≤ 24 then (40 : ℝ) else if d ≤ 72 then 30 else 15) +
        min 20 (Real.logb 10 (max a 1) * 4)) ∧
    0 ≤ cycle_risk_score k d a ∧ cycle_risk_score k d a ≤ 100 := by
  refine ⟨rfl, ?_, ?_⟩
  · rw [cycle_risk_score]
    have hlog : (0 : ℝ) ≤ Real.logb 10 (max a 1) :=
      Real.logb_nonneg (by norm_num) (le_max_right a 1)
    have hamt : (0 : ℝ) ≤ min 20 (Real.logb 10 (max a 1) * 4) :=
      le_min (by norm_num) (by nlinarith)
    have hls : (20 : ℝ) ≤ (if k = 3 then (40 : ℝ) else if k = 4 then 30 else 20) := by
      split <;> norm_num
      split <;> norm_num
    have hss : (15 : ℝ) ≤ (if d ≤ 24 then (40 : ℝ) else if d ≤ 72 then 30 else 15) := by
      split <;> norm_num
      split <;> norm_num
    exact le_min (by norm_num) (by linarith)
  · rw [cycle_risk_score]
    exact min_le_left _ _

/-- Witness for C8 at a concrete surviving cycle
(k = 3, one hour, 600 moved). -/
theorem cycle_risk_score_spec_witness :
    (3 : ℕ) ≤ 3 ∧ (3 : ℕ) ≤ 5 ∧
    (0 ≤ cycle_risk_score 3 1 600 ∧ cycle_risk_score 3 1 600 ≤ 100) :=
  ⟨by norm_num, by norm_num,
   ⟨(cycle_risk_score_spec 3 1 600 (by norm_num) (by norm_num)).2.1,
    (cycle_risk_score_spec 3 1 600 (by norm_num) (by norm_num)).2.2⟩⟩

theorem length_filterMap_timestamp (l : List Edge)
    (h : ∀ e ∈ l, e.timestamp ≠ none) :
    (l.filterMap (fun e => e.timestamp)).length = l.length := by
  induction l with
  | nil => rfl
  | cons a l ih =>
    cases hts : a.timestamp with
    | none => exact absurd hts (h a (List.mem_cons_self a l))
    | some t =>
      simp [List.filterMap_cons, hts, ih (fun e he => h e (List.mem_cons_of_mem a he))]

theorem length_le_length_flatMap {α β : Type} (L : List α) (f : α → List β)
    (h : ∀ p ∈ L, f p ≠ []) : L.length ≤ (L.flatMap f).length := by
  induction L with
  | nil => simp
  | cons a L ih =>
    have h1 : 1 ≤ (f a).length := by
      cases hfa : f a with
      | nil => exact absurd hfa (h a (List.mem_cons_self a L))
      | cons x xs => simp
    have h2 := ih (fun p hp => h p (List.mem_cons_of_mem a hp))
    simp only [List.flatMap_cons, List.length_append, List.length_cons]
    omega

theorem cyclePairs_length (cycle : List String) :
    (cyclePairs cycle).length = cycle.length := by
  rw [cyclePairs, List.length_zip, List.length_append, List.length_drop, List.length_take]
  omega

/-- Claim C2: for a candidate elementary cycle of length 3 to 5 all of
whose consecutive pairs have at least one edge and all of whose collected
edges carry timestamps, `detect_cycles` emits a ring if and only if the
min-to-max timestamp span is at most 7 days (604800 s, a span of exactly
168 hours kept) and the total collected amount is at least 500. -/
theorem cycle_emission_iff (G : Graph) (cycle : List String)
    (hnd : cycle.Nodup) (h1 : 3 ≤ cycle.length) (h2 : cycle.length ≤ 5)
    (h3 : ∀ p ∈ cyclePairs cycle, edgesBetween G p.1 p.2 ≠ [])
    (h4 : ∀ e ∈ collectedEdges G cycle, e.timestamp ≠ none) :
    (detectCycleOne G cycle).isSome ↔
      (cycleSpanSeconds G cycle ≤ 604800 ∧ 500 ≤ cycleTotalAmount G cycle) := by
  have hts : (cycleTimestamps G cycle).length = (collectedEdges G cycle).length :=
    length_filterMap_timestamp _ h4
  have hge : cycle.length ≤ (collectedEdges G cycle).length := by
    have h5 := length_le_length_flatMap (cyclePairs cycle)
      (fun p => edgesBetween G p.1 p.2) h3
    rwa [cyclePairs_length] at h5
  rw [detectCycleOne, if_neg (not_not_intro ⟨h1, h2⟩),
    if_neg (by push_neg; exact h3), if_neg (by omega)]
  split_ifs with hdur hamt
  · rw [div_div] at hdur
    simp only [Option.isSome_none, Bool.false_eq_true, false_iff, not_and]
    intro hs
    exfalso
    linarith
  · simp only [Option.isSome_none, Bool.false_eq_true, false_iff, not_and]
    intro _
    linarith
  · simp only [Option.isSome_some, true_iff]
    rw [div_div] at hdur
    push_neg at hdur hamt
    constructor
    · linarith
    · linarith

/-- Witness for C2: the minimal concrete cycle A→B→C→A (200 each hop,
one hour) satisfies all hypotheses and the ring is emitted. -/
theorem cycle_emission_iff_witness :
    (["A", "B", "C"] : List String).Nodup ∧
    3 ≤ (["A", "B", "C"] : List String).length ∧
    (["A", "B", "C"] : List String).length ≤ 5 ∧
    (∀ p ∈ cyclePairs ["A", "B", "C"], edgesBetween witnessCycleGraph p.1 p.2 ≠ []) ∧
    (∀ e ∈ collectedEdges witnessCycleGraph ["A", "B", "C"], e.timestamp ≠ none) ∧
    ((detectCycleOne witnessCycleGraph ["A", "B", "C"]).isSome ↔
      (cycleSpanSeconds witnessCycleGraph ["A", "B", "C"] ≤ 604800 ∧
        500 ≤ cycleTotalAmount witnessCycleGraph ["A", "B", "C"])) :=
  ⟨by decide, by decide, by decide, by decide, by decide,
   cycle_emission_iff witnessCycleGraph ["A", "B", "C"]
     (by decide) (by decide) (by decide) (by decide) (by decide)⟩

theorem filterMap_toTEvent_filter (events : List Event) :
    (events.filter (fun e => e.timestamp.isSome)).filterMap toTEvent =
      events.filterMap toTEvent := by
  induction events with
  | nil => rfl
  | cons a l ih =>
    cases hts : a.timestamp with
    | none => simp [List.filter_cons, hts, toTEvent, List.filterMap_cons, ih]
    | some t => simp [List.filter_cons, hts, toTEvent, List.filterMap_cons, ih]

/-- Counterexample to claim C5: in `missingTsGraph` the candidate cycle
A→B→C→A has an edge for every consecutive pair and exactly one collected
edge without a timestamp, yet the detector discards the whole candidate
cycle; filling in the one timestamp makes the same cycle emit a ring. -/
theorem cycle_missing_timestamp_counterexample :
    (∀ p ∈ cyclePairs ["A", "B", "C"], edgesBetween missingTsGraph p.1 p.2 ≠ []) ∧
    ((collectedEdges missingTsGraph ["A", "B", "C"]).filter
      (fun e => e.timestamp == none)).length = 1 ∧
    detectCycleOne missingTsGraph ["A", "B", "C"] = none ∧
    (detectCycleOne missingTsGraphFilled ["A", "B", "C"]).isSome = true := by
  refine ⟨by decide, by decide, by decide, by with_unfolding_all decide⟩

/-- Claim C5 (amended): the smurfing detector drops events lacking a
timestamp from its local view and continues; the cycle detector excludes
missing-timestamp edges only from the timestamp-span computation (their
amounts still count in the ring total), and it discards a candidate cycle
entirely whenever the timestamped collected edges number fewer than the
cycle length. -/
theorem missing_timestamp_handling :
    (∀ (so : List String → List String) (node : String) (events : List Event) (pattern : String),
      slidingWindowCheck so node (events.filter (fun e => e.timestamp.isSome)) pattern =
        slidingWindowCheck so node events pattern) ∧
    (∀ (G : Graph) (cycle : List String),
      (cycleTimestamps G cycle).length < cycle.length → detectCycleOne G cycle = none) ∧
    (∀ (G : Graph) (cycle : List String) (r : CycleRing),
      detectCycleOne G cycle = some r →
        r.total_amount = round2 (cycleTotalAmount G cycle)) := by
  refine ⟨?_, ?_, ?_⟩
  · intro so node events pattern
    rw [slidingWindowCheck, slidingWindowCheck, filterMap_toTEvent_filter]
  · intro G cycle h
    rw [detectCycleOne]
    split_ifs <;> rfl
  · intro G cycle r h
    rw [detectCycleOne] at h
    split_ifs at h
    injection h with h2
    rw [← h2]

/-- Witness for C5 (amended), at the concrete missing-timestamp cycle. -/
theorem missing_timestamp_handling_witness :
    (cycleTimestamps missingTsGraph ["A", "B", "C"]).length <
      (["A", "B", "C"] : List String).length ∧
    detectCycleOne missingTsGraph ["A", "B", "C"] = none :=
  ⟨by decide,
   missing_timestamp_handling.2.1 missingTsGraph ["A", "B", "C"] (by decide)⟩

theorem insertDesc_perm (a : FlaggedAccount) (l : List FlaggedAccount) :
    (insertDesc a l).Perm (a :: l) := by
  induction l with
  | nil => exact List.Perm.refl _
  | cons b bs ih =>
    rw [insertDesc]
    split
    · exact List.Perm.refl _
    · exact (ih.cons b).trans (List.Perm.swap a b bs)

theorem sortSuspicious_perm (l : List FlaggedAccount) :
    (sortSuspicious l).Perm l := by
  induction l with
  | nil => exact List.Perm.refl _
  | cons x xs ih =>
    rw [sortSuspicious]
    exact (insertDesc_perm x (sortSuspicious xs)).trans (ih.cons x)

theorem insertDesc_sorted (a : FlaggedAccount) (l : List FlaggedAccount)
    (h : l.Pairwise (fun x y => y.suspicion_score ≤ x.suspicion_score)) :
    (insertDesc a l).Pairwise (fun x y => y.suspicion_score ≤ x.suspicion_score) := by
  induction l with
  | nil => exact List.pairwise_singleton _ _
  | cons b bs ih =>
    rw [insertDesc]
    rw [List.pairwise_cons] at h
    split
    · rename_i hba
      rw [List.pairwise_cons]
      refine ⟨?_, List.pairwise_cons.mpr h⟩
      intro x hx
      rcases List.mem_cons.mp hx with hxb | hxbs
      · rw [hxb]; exact hba
      · exact le_trans (h.1 x hxbs) hba
    · rename_i hba
      push_neg at hba
      rw [List.pairwise_cons]
      refine ⟨?_, ih h.2⟩
      intro x hx
      rcases List.mem_cons.mp ((insertDesc_perm a bs).mem_iff.mp hx) with hxa | hxbs
      · rw [hxa]
        exact le_of_lt hba
      · exact h.1 x hxbs

theorem sortSuspicious_sorted (l : List FlaggedAccount) :
    (sortSuspicious l).Pairwise (fun x y => y.suspicion_score ≤ x.suspicion_score) := by
  induction l with
  | nil => exact List.Pairwise.nil
  | cons x xs ih => exact insertDesc_sorted x (sortSuspicious xs) ih

theorem filter_insertDesc (s : ℚ) (a : FlaggedAccount) (l : List FlaggedAccount) :
    (insertDesc a l).filter (fun x => decide (x.suspicion_score = s)) =
      (a :: l).filter (fun x => decide (x.suspicion_score = s)) := by
  induction l with
  | nil => rfl
  | cons b bs ih =>
    rw [insertDesc]
    split
    · rfl
    · rename_i hcond
      push_neg at hcond
      by_cases pb : b.suspicion_score = s
      · by_cases pa : a.suspicion_score = s
        · exfalso
          rw [pa, ← pb] at hcond
          exact lt_irrefl _ hcond
        · simp [List.filter_cons, pb, pa, ih]
      · by_cases pa : a.suspicion_score = s
        · simp [List.filter_cons, pb, pa, ih]
        · simp [List.filter_cons, pb, pa, ih]

theorem sortSuspicious_filter (s : ℚ) (l : List FlaggedAccount) :
    (sortSuspicious l).filter (fun x => decide (x.suspicion_score = s)) =
      l.filter (fun x => decide (x.suspicion_score = s)) := by
  induction l with
  | nil => rfl
  | cons x xs ih =>
    rw [sortSuspicious, filter_insertDesc]
    simp only [List.filter_cons, ih]

set_option maxRecDepth 40000 in
/-- Counterexample to claim C1: a shell-chain ring whose members arrive in
the order D, B, A, C gives all four accounts equal suspicion scores, and
the report keeps that insertion order — B precedes A although A is
lexicographically smaller, so ties are not broken by account id. -/
theorem report_tiebreak_counterexample :
    ¬ reportOrderSpec
      (sortSuspicious (filterAccounts [] [] (score_accounts [] [] [] [shellRingBA]))) := by
  with_unfolding_all decide

/-- Claim C1 (amended): `suspicious_accounts` is a permutation of the
cleaned accounts sorted in non-increasing order of `suspicion_score`;
ties keep the insertion order of the flagged-accounts map (the order in
which accounts first appeared in rings), not account-id order. -/
theorem report_sort_stable_desc (accs : List FlaggedAccount) :
    (sortSuspicious accs).Pairwise
      (fun x y => y.suspicion_score ≤ x.suspicion_score) ∧
    (sortSuspicious accs).Perm accs ∧
    ∀ s : ℚ, (sortSuspicious accs).filter (fun x => decide (x.suspicion_score = s)) =
      accs.filter (fun x => decide (x.suspicion_score = s)) :=
  ⟨sortSuspicious_sorted accs, sortSuspicious_perm accs,
   fun s => sortSuspicious_filter s accs⟩

theorem dfsNb_eq_flatMap (G : Graph) (path : List String) (f : ℕ) (ns : List String) :
    dfsNb G path f ns = ns.flatMap (fun c =>
      if c ∈ path then [] else
      if ((path ++ [c]).drop 1).dropLast.all (fun n => isShell G n) then
        (if 3 ≤ (path ++ [c]).length - 1 then [path ++ [c]] else []) ++
          dfsGo G (path ++ [c]) f
      else
        (if 3 ≤ (path ++ [c]).length - 1 - 1 then [path] else [])) := by
  induction ns with
  | nil => simp [dfsNb]
  | cons c rest ih => simp only [dfsNb, ih, List.flatMap_cons]

/-- Claim C4: one step of the shell-chain DFS. At depth ≥ 8 nothing is
explored. Below that, for every candidate neighbor c not already on the
path: if some intermediate of the extended path fails the shell predicate,
the pre-extension path is recorded exactly when it has ≥ 3 hops and the
DFS does not recurse along c; if all intermediates are shells, the
extended path is recorded exactly when it has ≥ 3 hops and the DFS
recurses at depth + 1. -/
theorem shell_dfs_step_spec (G : Graph) (path : List String) (depth : ℕ) :
    (8 ≤ depth → dfs_find_chains G path depth = []) ∧
    (depth < 8 → dfs_find_chains G path depth =
      (successors G (path.getLastD "")).flatMap (fun c =>
        if c ∈ path then [] else
        if ∃ n ∈ ((path ++ [c]).drop 1).dropLast, ¬ isShell G n = true then
          (if 3 ≤ path.length - 1 then [path] else [])
        else
          (if 3 ≤ path.length then [path ++ [c]] else []) ++
            dfs_find_chains G (path ++ [c]) (depth + 1))) := by
  constructor
  · intro h
    rw [dfs_find_chains]
    have h0 : 8 - depth = 0 := by omega
    rw [h0, dfsGo]
  · intro h
    rw [dfs_find_chains]
    have h8 : 8 - depth = (8 - (depth + 1)) + 1 := by omega
    rw [h8, dfsGo, dfsNb_eq_flatMap]
    apply List.flatMap_congr
    intro c _
    by_cases hc : c ∈ path
    · rw [if_pos hc, if_pos hc]
    · rw [if_neg hc, if_neg hc]
      have hlen : (path ++ [c]).length - 1 = path.length := by
        rw [List.length_append]
        simp
      by_cases hall : (((path ++ [c]).drop 1).dropLast.all (fun n => isShell G n)) = true
      · have hex : ¬ ∃ n ∈ ((path ++ [c]).drop 1).dropLast, ¬ isShell G n = true := by
          rw [List.all_eq_true] at hall
          push_neg
          exact fun n hn => hall n hn
        rw [if_pos hall, if_neg hex, hlen, dfs_find_chains]
      · have hex : ∃ n ∈ ((path ++ [c]).drop 1).dropLast, ¬ isShell G n = true := by
          rw [List.all_eq_true] at hall
          push_neg at hall
          exact hall
        have hlen2 : (path ++ [c]).length - 1 - 1 = path.length - 1 := by rw [hlen]
        rw [if_neg hall, if_pos hex, hlen2]

/-- Witness for C4 at depth 0 on the concrete shell chain A→S1→S2→B. -/
theorem shell_dfs_step_spec_witness :
    (0 : ℕ) < 8 ∧
    dfs_find_chains witnessShellGraph ["A"] 0 =
      (successors witnessShellGraph (["A"].getLastD "")).flatMap (fun c =>
        if c ∈ ["A"] then [] else
        if ∃ n ∈ ((["A"] ++ [c]).drop 1).dropLast, ¬ isShell witnessShellGraph n = true then
          (if 3 ≤ (["A"] : List String).length - 1 then [["A"]] else [])
        else
          (if 3 ≤ (["A"] : List String).length then [["A"] ++ [c]] else []) ++
            dfs_find_chains witnessShellGraph (["A"] ++ [c]) (0 + 1)) :=
  ⟨by decide, (shell_dfs_step_spec witnessShellGraph ["A"] 0).2 (by decide)⟩

theorem updateAcc_keys (m : AccMap) (a : String) (f : AccData → AccData) :
    (updateAcc m a f).map Prod.fst = m.map Prod.fst := by
  rw [updateAcc, List.map_map]
  apply List.map_congr_left
  intro p _
  simp only [Function.comp_apply]
  split <;> rfl

theorem ensureAcc_keys_subset (m : AccMap) (a x : String)
    (h : x ∈ (ensureAcc m a).map Prod.fst) : x ∈ m.map Prod.fst ∨ x = a := by
  rw [ensureAcc] at h
  split at h
  · exact Or.inl h
  · rw [List.map_append] at h
    rcases List.mem_append.mp h with h1 | h2
    · exact Or.inl h1
    · simp only [List.map_cons, List.map_nil, List.mem_singleton] at h2
      exact Or.inr h2

theorem procRing_go_keys (u : AccData → AccData) (ms : List String) (m : AccMap)
    (x : String)
    (h : x ∈ ((ms.foldl (fun m2 acc => updateAcc (ensureAcc m2 acc) acc u) m).map
      Prod.fst)) :
    x ∈ m.map Prod.fst ∨ x ∈ ms := by
  induction ms generalizing m with
  | nil => exact Or.inl h
  | cons c cs ih =>
    rw [List.foldl_cons] at h
    rcases ih _ h with h1 | h2
    · rw [updateAcc_keys] at h1
      rcases ensureAcc_keys_subset m c x h1 with h3 | h4
      · exact Or.inl h3
      · exact Or.inr (h4 ▸ List.mem_cons_self c cs)
    · exact Or.inr (List.mem_cons_of_mem c h2)

theorem procRing_fold_keys (upd : Ring → AccData → AccData) (rings : List Ring)
    (m : AccMap) (x : String)
    (h : x ∈ ((rings.foldl (procRing upd) m).map Prod.fst)) :
    x ∈ m.map Prod.fst ∨ ∃ r ∈ rings, x ∈ r.members := by
  induction rings generalizing m with
  | nil => exact Or.inl h
  | cons r rs ih =>
    rw [List.foldl_cons] at h
    rcases ih _ h with h1 | h2
    · rw [procRing] at h1
      rcases procRing_go_keys (upd r) r.members m x h1 with h3 | h4
      · exact Or.inl h3
      · exact Or.inr ⟨r, List.mem_cons_self r rs, h4⟩
    · obtain ⟨r2, hr2, hx⟩ := h2
      exact Or.inr ⟨r2, List.mem_cons_of_mem r hr2, hx⟩

theorem adjustAccount_account_id (merchants payroll : List String)
    (a b : FlaggedAccount) (h : adjustAccount merchants payroll a = some b) :
    b.account_id = a.account_id := by
  rw [adjustAccount] at h
  split_ifs at h <;> (injection h with h2; rw [← h2])

/-- Claim C10: every account in the scorer's output — and hence every
entry of `suspicious_accounts` after filtering and sorting — is a member
of at least one detected ring; an account with only a velocity spike is
never flagged. -/
theorem flagged_accounts_have_rings :
    (∀ (txns : List Txn) (cycleRings smurfRings shellRings : List Ring)
       (fa : FlaggedAccount),
      fa ∈ score_accounts txns cycleRings smurfRings shellRings →
      ∃ r ∈ cycleRings ++ smurfRings ++ shellRings, fa.account_id ∈ r.members) ∧
    (∀ (txns : List Txn) (cycleRings smurfRings shellRings : List Ring)
       (merchants payroll : List String) (fa : FlaggedAccount),
      fa ∈ sortSuspicious (filterAccounts merchants payroll
        (score_accounts txns cycleRings smurfRings shellRings)) →
      ∃ r ∈ cycleRings ++ smurfRings ++ shellRings, fa.account_id ∈ r.members) := by
  have key : ∀ (txns : List Txn) (cycleRings smurfRings shellRings : List Ring)
      (fa : FlaggedAccount),
      fa ∈ score_accounts txns cycleRings smurfRings shellRings →
      ∃ r ∈ cycleRings ++ smurfRings ++ shellRings, fa.account_id ∈ r.members := by
    intro txns cycleRings smurfRings shellRings fa hfa
    rw [score_accounts] at hfa
    obtain ⟨p, hp, hmk⟩ := List.mem_map.mp hfa
    have hid : fa.account_id = p.1 := by rw [← hmk]
    have hkey : p.1 ∈ (shellRings.foldl (procRing shellUpd)
        (smurfRings.foldl (procRing smurfUpd)
          (cycleRings.foldl (procRing cycleUpd) []))).map Prod.fst :=
      List.mem_map.mpr ⟨p, hp, rfl⟩
    rcases procRing_fold_keys shellUpd shellRings _ p.1 hkey with h1 | h1
    · rcases procRing_fold_keys smurfUpd smurfRings _ p.1 h1 with h2 | h2
      · rcases procRing_fold_keys cycleUpd cycleRings _ p.1 h2 with h3 | h3
        · simp at h3
        · obtain ⟨r, hr, hx⟩ := h3
          exact ⟨r, by simp [List.mem_append, hr], hid ▸ hx⟩
      · obtain ⟨r, hr, hx⟩ := h2
        exact ⟨r, by simp [List.mem_append, hr], hid ▸ hx⟩
    · obtain ⟨r, hr, hx⟩ := h1
      exact ⟨r, by simp [List.mem_append, hr], hid ▸ hx⟩
  refine ⟨key, ?_⟩
  intro txns cycleRings smurfRings shellRings merchants payroll fa hfa
  have hmem := (sortSuspicious_perm _).mem_iff.mp hfa
  rw [filterAccounts] at hmem
  obtain ⟨a, ha, hadj⟩ := List.mem_filterMap.mp hmem
  obtain ⟨r, hr, hx⟩ := key txns cycleRings smurfRings shellRings a ha
  exact ⟨r, hr, (adjustAccount_account_id merchants payroll a fa hadj) ▸ hx⟩

theorem insertByTs_perm (a : TEvent) (l : List TEvent) :
    (insertByTs a l).Perm (a :: l) := by
  induction l with
  | nil => exact List.Perm.refl _
  | cons b bs ih =>
    rw [insertByTs]
    split
    · exact List.Perm.refl _
    · exact (ih.cons b).trans (List.Perm.swap a b bs)

theorem sortTs_perm (l : List TEvent) : (sortTs l).Perm l := by
  induction l with
  | nil => exact List.Perm.refl _
  | cons x xs ih =>
    rw [sortTs]
    exact (insertByTs_perm x (sortTs xs)).trans (ih.cons x)

theorem insertByTs_sorted (a : TEvent) (l : List TEvent)
    (h : l.Pairwise (fun x y => x.ts ≤ y.ts)) :
    (insertByTs a l).Pairwise (fun x y => x.ts ≤ y.ts) := by
  induction l with
  | nil => exact List.pairwise_singleton _ _
  | cons b bs ih =>
    rw [insertByTs]
    rw [List.pairwise_cons] at h
    split
    · rename_i hab
      rw [List.pairwise_cons]
      refine ⟨?_, List.pairwise_cons.mpr h⟩
      intro x hx
      rcases List.mem_cons.mp hx with hxb | hxbs
      · rw [hxb]; exact hab
      · exact le_trans hab (h.1 x hxbs)
    · rename_i hab
      push_neg at hab
      rw [List.pairwise_cons]
      refine ⟨?_, ih h.2⟩
      intro x hx
      rcases List.mem_cons.mp ((insertByTs_perm a bs).mem_iff.mp hx) with hxa | hxbs
      · rw [hxa]
        exact le_of_lt hab
      · exact h.1 x hxbs

theorem sortTs_sorted (l : List TEvent) :
    (sortTs l).Pairwise (fun x y => x.ts ≤ y.ts) := by
  induction l with
  | nil => exact List.Pairwise.nil
  | cons x xs ih => exact insertByTs_sorted x (sortTs xs) ih

theorem windowUnique_perm {l l2 : List TEvent} (h : l.Perm l2) (t : ℚ) :
    windowUnique l t = windowUnique l2 t := by
  have hp : (windowEvents l t).Perm (windowEvents l2 t) := by
    rw [windowEvents, windowEvents]
    exact h.filter _
  rw [windowUnique, windowUnique,
    List.toFinset_eq_of_perm _ _ (hp.map (fun x => x.counterparty))]

theorem swFold_go (l : List TEvent) (xs : List TEvent) :
    ∀ (c : ℕ) (w : Option (ℚ × List TEvent)),
    xs.Pairwise (fun a b => a.ts ≤ b.ts) →
    (∀ t wev, w = some (t, wev) →
      wev = windowEvents l t ∧ windowUnique l t = c ∧ ∀ x ∈ xs, t ≤ x.ts) →
    c ≤ (xs.foldl (swStep l) (c, w)).1 ∧
    (∀ x ∈ xs, windowUnique l x.ts ≤ (xs.foldl (swStep l) (c, w)).1) ∧
    ((xs.foldl (swStep l) (c, w)).1 = c → (xs.foldl (swStep l) (c, w)).2 = w) ∧
    ((xs.foldl (swStep l) (c, w)).2 = none →
      w = none ∧ (xs.foldl (swStep l) (c, w)).1 = c) ∧
    (∀ t wev, (xs.foldl (swStep l) (c, w)).2 = some (t, wev) →
      wev = windowEvents l t ∧ windowUnique l t = (xs.foldl (swStep l) (c, w)).1 ∧
      (w = some (t, wev) ∨ ∃ x ∈ xs, x.ts = t) ∧
      (∀ x ∈ xs, windowUnique l x.ts = (xs.foldl (swStep l) (c, w)).1 → t ≤ x.ts)) := by
  induction xs with
  | nil =>
    intro c w _ hw
    refine ⟨le_refl c, by simp, fun _ => rfl, fun h => ⟨h, rfl⟩, ?_⟩
    intro t wev h
    obtain ⟨h1, h2, -⟩ := hw t wev h
    exact ⟨h1, h2, Or.inl h, by simp⟩
  | cons x rest ih =>
    intro c w hp hw
    rw [List.pairwise_cons] at hp
    rw [List.foldl_cons]
    by_cases hlt : c < windowUnique l x.ts
    · have hstep : swStep l (c, w) x =
          (windowUnique l x.ts, some (x.ts, windowEvents l x.ts)) := by
        rw [swStep]
        exact if_pos hlt
      rw [hstep]
      have hw2 : ∀ t wev,
          (some (x.ts, windowEvents l x.ts) : Option (ℚ × List TEvent)) = some (t, wev) →
          wev = windowEvents l t ∧ windowUnique l t = windowUnique l x.ts ∧
            ∀ y ∈ rest, t ≤ y.ts := by
        intro t wev h
        injection h with h2
        have ht : x.ts = t := congrArg Prod.fst h2
        have hwev : windowEvents l x.ts = wev := congrArg Prod.snd h2
        exact ⟨ht ▸ hwev.symm, ht ▸ rfl, fun y hy => ht ▸ hp.1 y hy⟩
      obtain ⟨A, B, C, D, E⟩ :=
        ih (windowUnique l x.ts) (some (x.ts, windowEvents l x.ts)) hp.2 hw2
      refine ⟨le_trans (le_of_lt hlt) A, ?_, ?_, ?_, ?_⟩
      · intro y hy
        rcases List.mem_cons.mp hy with h1 | h1
        · rw [h1]; exact A
        · exact B y h1
      · intro hc
        exfalso
        omega
      · intro h2
        obtain ⟨hwnone, -⟩ := D h2
        exact absurd hwnone (by simp)
      · intro t wev h2
        obtain ⟨E1, E2, E3, E4⟩ := E t wev h2
        refine ⟨E1, E2, ?_, ?_⟩
        · rcases E3 with h3 | h3
          · injection h3 with h4
            exact Or.inr ⟨x, List.mem_cons_self x rest, congrArg Prod.fst h4⟩
          · obtain ⟨y, hy, hyt⟩ := h3
            exact Or.inr ⟨y, List.mem_cons_of_mem x hy, hyt⟩
        · intro y hy hyu
          rcases List.mem_cons.mp hy with h3 | h3
          · rw [h3]
            have hr2 := C (by rw [← hyu, h3])
            rw [hr2] at h2
            injection h2 with h4
            exact le_of_eq (congrArg Prod.fst h4).symm
          · exact E4 y h3 hyu
    · have hstep : swStep l (c, w) x = (c, w) := by
        rw [swStep]
        exact if_neg hlt
      rw [hstep]
      have hw2 : ∀ t wev, w = some (t, wev) →
          wev = windowEvents l t ∧ windowUnique l t = c ∧ ∀ y ∈ rest, t ≤ y.ts := by
        intro t wev h
        obtain ⟨h1, h2, h3⟩ := hw t wev h
        exact ⟨h1, h2, fun y hy => h3 y (List.mem_cons_of_mem x hy)⟩
      obtain ⟨A, B, C, D, E⟩ := ih c w hp.2 hw2
      push_neg at hlt
      refine ⟨A, ?_, C, D, ?_⟩
      · intro y hy
        rcases List.mem_cons.mp hy with h1 | h1
        · rw [h1]; exact le_trans hlt A
        · exact B y h1
      · intro t wev h2
        obtain ⟨E1, E2, E3, E4⟩ := E t wev h2
        refine ⟨E1, E2, ?_, ?_⟩
        · rcases E3 with h3 | h3
          · exact Or.inl h3
          · obtain ⟨y, hy, hyt⟩ := h3
            exact Or.inr ⟨y, List.mem_cons_of_mem x hy, hyt⟩
        · intro y hy hyu
          rcases List.mem_cons.mp hy with h3 | h3
          · have hceq : (rest.foldl (swStep l) (c, w)).1 = c := by
              rw [h3] at hyu
              omega
            have hr2 := C hceq
            rw [hr2] at h2
            rw [h3]
            exact (hw t wev h2).2.2 x (List.mem_cons_self x rest)
          · exact E4 y h3 hyu

/-- Claim C3: `_sliding_window_check` emits a ring iff some 72-hour window
whose left edge is one of the node's (timestamped) events contains at
least 10 unique counterparties, and the reported peak window is the
earliest window achieving the maximum unique-counterparty count. -/
theorem smurf_window_spec (so : List String → List String) (node : String)
    (events : List Event) (pattern : String) :
    ((slidingWindowCheck so node events pattern).isSome ↔
      ∃ e ∈ events.filterMap toTEvent,
        10 ≤ windowUnique (events.filterMap toTEvent) e.ts) ∧
    (∀ r, slidingWindowCheck so node events pattern = some r →
      (∃ e ∈ events.filterMap toTEvent, e.ts = r.peak_window_start) ∧
      windowUnique (events.filterMap toTEvent) r.peak_window_start = r.peak_count ∧
      10 ≤ r.peak_count ∧
      (∀ e ∈ events.filterMap toTEvent,
        windowUnique (events.filterMap toTEvent) e.ts ≤ r.peak_count) ∧
      (∀ e ∈ events.filterMap toTEvent,
        windowUnique (events.filterMap toTEvent) e.ts = r.peak_count →
          r.peak_window_start ≤ e.ts)) := by
  cases htev : events.filterMap toTEvent with
  | nil =>
    constructor
    · simp only [slidingWindowCheck, htev]
      simp
    · intro r hr
      simp only [slidingWindowCheck, htev] at hr
      cases hr
  | cons t0 ts0 =>
    have hperm : (sortTs (t0 :: ts0)).Perm (t0 :: ts0) := sortTs_perm _
    obtain ⟨A, B, C, D, E⟩ :=
      swFold_go (sortTs (t0 :: ts0)) (sortTs (t0 :: ts0)) 0 none
        (sortTs_sorted (t0 :: ts0)) (by intro t wev h; cases h)
    have B2 : ∀ x ∈ sortTs (t0 :: ts0),
        windowUnique (sortTs (t0 :: ts0)) x.ts ≤ (swFold (sortTs (t0 :: ts0))).1 := B
    have D2 : (swFold (sortTs (t0 :: ts0))).2 = none →
        (none : Option (ℚ × List TEvent)) = none ∧
          (swFold (sortTs (t0 :: ts0))).1 = 0 := D
    have E2 : ∀ t wev, (swFold (sortTs (t0 :: ts0))).2 = some (t, wev) →
        wev = windowEvents (sortTs (t0 :: ts0)) t ∧
        windowUnique (sortTs (t0 :: ts0)) t = (swFold (sortTs (t0 :: ts0))).1 ∧
        ((none : Option (ℚ × List TEvent)) = some (t, wev) ∨
          ∃ x ∈ sortTs (t0 :: ts0), x.ts = t) ∧
        (∀ x ∈ sortTs (t0 :: ts0),
          windowUnique (sortTs (t0 :: ts0)) x.ts = (swFold (sortTs (t0 :: ts0))).1 →
            t ≤ x.ts) := E
    constructor
    · simp only [slidingWindowCheck, htev]
      by_cases hbest : (swFold (sortTs (t0 :: ts0))).1 < 10
      · rw [if_pos hbest]
        simp only [Option.isSome_none, Bool.false_eq_true, false_iff, not_exists]
        intro e hcon
        obtain ⟨he, hcount⟩ := hcon
        have hle := B2 e (hperm.mem_iff.mpr he)
        rw [windowUnique_perm hperm] at hle
        omega
      · rw [if_neg hbest]
        push_neg at hbest
        cases hb2 : (swFold (sortTs (t0 :: ts0))).2 with
        | none => exact absurd (D2 hb2).2 (by omega)
        | some p =>
          obtain ⟨ws, wevs⟩ := p
          simp only [Option.isSome_some, true_iff]
          obtain ⟨-, F2, F3, -⟩ := E2 ws wevs hb2
          rcases F3 with h3 | h3
          · cases h3
          · obtain ⟨x, hx, hxt⟩ := h3
            refine ⟨x, hperm.mem_iff.mp hx, ?_⟩
            rw [← windowUnique_perm hperm, hxt, F2]
            exact hbest
    · intro r hr
      simp only [slidingWindowCheck, htev] at hr
      by_cases hbest : (swFold (sortTs (t0 :: ts0))).1 < 10
      · rw [if_pos hbest] at hr
        cases hr
      · rw [if_neg hbest] at hr
        push_neg at hbest
        cases hb2 : (swFold (sortTs (t0 :: ts0))).2 with
        | none =>
          rw [hb2] at hr
          simp at hr
        | some p =>
          obtain ⟨ws, wevs⟩ := p
          rw [hb2] at hr
          injection hr with hr2
          obtain ⟨-, F2, F3, F4⟩ := E2 ws wevs hb2
          have hst : r.peak_window_start = ws := by rw [← hr2]
          have hpc : r.peak_count = (swFold (sortTs (t0 :: ts0))).1 := by rw [← hr2]
          refine ⟨?_, ?_, ?_, ?_, ?_⟩
          · rcases F3 with h3 | h3
            · cases h3
            · obtain ⟨x, hx, hxt⟩ := h3
              refine ⟨x, hperm.mem_iff.mp hx, ?_⟩
              rw [hst]
              exact hxt
          · rw [hst, hpc]
            exact ((windowUnique_perm hperm ws).symm).trans F2
          · rw [hpc]
            exact hbest
          · intro e he
            rw [hpc]
            have hle := B2 e (hperm.mem_iff.mpr he)
            rwa [windowUnique_perm hperm] at hle
          · intro e he hcount
            rw [hst]
            apply F4 e (hperm.mem_iff.mpr he)
            rw [windowUnique_perm hperm, ← hpc]
            exact hcount

set_option maxRecDepth 40000 in
/-- Witness for C3: ten distinct senders within 90 seconds emit a ring. -/
theorem smurf_window_spec_witness :
    (slidingWindowCheck id "H" tenSenderEvents "fan_in").isSome = true :=
  (smurf_window_spec id "H" tenSenderEvents "fan_in").1.mpr
    ⟨{ counterparty := "P0", amount := 1, ts := 0 },
     by with_unfolding_all decide, by with_unfolding_all decide⟩

set_option maxRecDepth 40000 in
/-- Counterexample to claim C9: the only implementation-defined input of
`_sliding_window_check` is the iteration order of `list(set(...))`; two
legitimate orders of the same counterparty set (both permutations of the
distinct counterparties, as Python guarantees) produce different member
lists, so reports are not stable across interpreter runs with different
hash seeds. -/
theorem smurf_member_order_counterexample :
    slidingWindowCheck id "H" tenSenderEvents "fan_in" ≠
      slidingWindowCheck List.reverse "H" tenSenderEvents "fan_in" ∧
    ∀ xs : List String, (List.reverse xs).Perm xs :=
  ⟨by with_unfolding_all decide, fun xs => List.reverse_perm xs⟩

/-- Claim C9 (amended): `_sliding_window_check` is deterministic up to the
order of the counterparties inside the member list: for any two
set-iteration orders, emission, hub, pattern, peak window, peak count and
total amount agree, and the member lists are permutations of each other. -/
theorem smurf_check_order_invariant (so1 so2 : List String → List String)
    (node : String) (events : List Event) (pattern : String)
    (h1 : ∀ xs, (so1 xs).Perm xs) (h2 : ∀ xs, (so2 xs).Perm xs) :
    ((slidingWindowCheck so1 node events pattern).isSome =
      (slidingWindowCheck so2 node events pattern).isSome) ∧
    (∀ r1 r2, slidingWindowCheck so1 node events pattern = some r1 →
      slidingWindowCheck so2 node events pattern = some r2 →
      smurfRingEquiv r1 r2) := by
  cases htev : events.filterMap toTEvent with
  | nil =>
    constructor
    · simp only [slidingWindowCheck, htev]
    · intro r1 r2 hr1 _
      simp only [slidingWindowCheck, htev] at hr1
      cases hr1
  | cons t0 ts0 =>
    constructor
    · simp only [slidingWindowCheck, htev]
      by_cases hb : (swFold (sortTs (t0 :: ts0))).1 < 10
      · rw [if_pos hb, if_pos hb]
      · rw [if_neg hb, if_neg hb]
        cases hb2 : (swFold (sortTs (t0 :: ts0))).2 with
        | none => rfl
        | some p =>
          obtain ⟨ws, wevs⟩ := p
          rfl
    · intro r1 r2 hr1 hr2
      simp only [slidingWindowCheck, htev] at hr1 hr2
      by_cases hb : (swFold (sortTs (t0 :: ts0))).1 < 10
      · rw [if_pos hb] at hr1
        cases hr1
      · rw [if_neg hb] at hr1 hr2
        cases hb2 : (swFold (sortTs (t0 :: ts0))).2 with
        | none =>
          rw [hb2] at hr1
          simp at hr1
        | some p =>
          obtain ⟨ws, wevs⟩ := p
          rw [hb2] at hr1 hr2
          injection hr1 with e1
          injection hr2 with e2
          rw [← e1, ← e2]
          exact ⟨rfl, rfl, ((h1 _).trans (h2 _).symm).cons node, rfl, rfl, rfl, rfl⟩

/-- Witness for C9 (amended): the identity and the reversal are both valid
set-iteration orders, and emission agrees between them. -/
theorem smurf_check_order_invariant_witness :
    (slidingWindowCheck id "H" tenSenderEvents "fan_in").isSome =
      (slidingWindowCheck List.reverse "H" tenSenderEvents "fan_in").isSome :=
  (smurf_check_order_invariant id List.reverse "H" tenSenderEvents "fan_in"
    (fun xs => List.Perm.refl xs) (fun xs => List.reverse_perm xs)).1

set_option maxRecDepth 40000 in
/-- Witness for C10: account D of the concrete shell ring is in the
scorer's output and is a member of that ring. -/
theorem flagged_accounts_have_rings_witness :
    flaggedD ∈ score_accounts [] [] [] [shellRingBA] ∧
    ∃ r ∈ ([] : List Ring) ++ [] ++ [shellRingBA], flaggedD.account_id ∈ r.members :=
  ⟨by with_unfolding_all decide,
   flagged_accounts_have_rings.1 [] [] [] [shellRingBA] flaggedD
     (by with_unfolding_all decide)⟩

end MoneyMuling
